import Mathlib

/-!
Verification of the cosplae compiler backend (src/ir.rs, src/elfgen.rs,
src/vm.rs, src/codegen.rs), shallowly embedded in Lean.

Modelling conventions:
* machine bytes are `Nat` values in `[0, 256)` produced by explicit `% 256`
  arithmetic; byte buffers are `List Nat`;
* Rust `usize`/`u64` values are `Nat`, `i32`/`i64` values are `Int`;
  the Rust `as i32` cast is the signed wrap `i32wrap` (a value-preserving
  operation below `2^31`, two's-complement wrapping above);
* Rust panics (`expect`, `panic!`-style aborts, indexing out of bounds,
  division by zero) are modelled as `Option.none`;
* the emitter methods of `elfgen.rs` mutate `self.code` by appending only,
  so each `emit_*` is embedded as the list of bytes it appends, and
  `Compiler.compile_program` threads the `Compiler` state explicitly;
* the file write of `generate_elf` is modelled by returning the complete
  image bytes; a separate small file-system model (`persistElf`) captures
  the create/truncate/write-all behaviour for the persistence claims.
-/

namespace Cosplae

/-- Signed 32-bit two's-complement wrap: the value denoted by the low 32 bits
of an integer, as in a Rust `as i32` cast (and release-mode wrapping). -/
def i32wrap (n : Int) : Int := (n + 2 ^ 31) % 2 ^ 32 - 2 ^ 31

/-- Rust `usize as i32` cast. -/
def toI32 (n : Nat) : Int := i32wrap n

/-- Little-endian bytes of `n` as an unsigned 16-bit value
(Rust `u16::to_le_bytes`). -/
def le16 (n : Nat) : List Nat := [n % 256, n / 256 % 256]

/-- Little-endian bytes of `n` as an unsigned 32-bit value
(Rust `u32::to_le_bytes`). -/
def le32n (n : Nat) : List Nat :=
  [n % 256, n / 256 % 256, n / 256 ^ 2 % 256, n / 256 ^ 3 % 256]

/-- Little-endian bytes of `n` as an unsigned 64-bit value
(Rust `u64::to_le_bytes`). -/
def le64 (n : Nat) : List Nat :=
  [n % 256, n / 256 % 256, n / 256 ^ 2 % 256, n / 256 ^ 3 % 256,
   n / 256 ^ 4 % 256, n / 256 ^ 5 % 256, n / 256 ^ 6 % 256, n / 256 ^ 7 % 256]

/-- Little-endian bytes of the signed 32-bit value `m`
(Rust `i32::to_le_bytes`): the two's-complement image of `m` mod `2^32`. -/
def le32i (m : Int) : List Nat := le32n ((m % (2 ^ 32 : Int)).toNat)

/-- Little-endian decoding of a byte list back to the unsigned value it
declares (used to state what a header field "declares"). -/
def decLe (bs : List Nat) : Nat := bs.foldr (fun b acc => b + 256 * acc) 0

/-- IR instruction set (src/ir.rs, `enum Instr`). -/
inductive Instr
  | pushI32 (n : Int)
  | pop
  | load (idx : Nat)
  | store (idx : Nat)
  | add
  | sub
  | mul
  | div
  | print
  | ret
  deriving DecidableEq, Repr

/-- One function's code plus its local-slot layout (src/ir.rs, `struct Func`). -/
structure Func where
  name : String
  code : List Instr
  n_locals : Nat
  locals_dbg : List String
  deriving DecidableEq, Repr

/-- A program: an ordered list of functions (src/ir.rs, `struct ProgramIR`). -/
structure ProgramIR where
  funcs : List Func
  deriving DecidableEq, Repr

/-- Index of the first function named `main`
(src/ir.rs, `ProgramIR::main_index`). -/
def ProgramIR.main_index (p : ProgramIR) : Option Nat :=
  p.funcs.findIdx? (fun f => f.name = "main")

/-- Bytes appended by `Compiler::emit_prologue` (src/elfgen.rs:55-74):
push rbp; mov rbp, rsp; and, when `n_locals > 0`, sub rsp with an imm8
encoding when the (wrapped) stack size is at most 127, else an imm32. -/
def emitPrologueBytes (nLocals : Nat) : List Nat :=
  [0x55] ++ [0x48, 0x89, 0xE5] ++
    (if nLocals > 0 then
      let stackSize : Int := toI32 (nLocals * 8)
      if stackSize ≤ 127 then
        [0x48, 0x83, 0xEC, (stackSize % 256).toNat]
      else
        [0x48, 0x81, 0xEC] ++ le32i stackSize
    else [])

/-- Bytes appended by `Compiler::emit_push_i32` (src/elfgen.rs:96-100). -/
def emitPushI32Bytes (value : Int) : List Nat := [0x68] ++ le32i value

/-- Bytes appended by `Compiler::emit_pop_discard` (src/elfgen.rs:103-106). -/
def emitPopDiscardBytes : List Nat := [0x48, 0x83, 0xC4, 0x08]

/-- Bytes appended by `Compiler::emit_load` (src/elfgen.rs:111-126):
the frame offset is `((idx + 1) * 8) as i32`; a one-byte displacement
`(256 - offset) as u8` when `offset <= 128`, else mov with a four-byte
displacement `(-offset).to_le_bytes()` followed by push rax. -/
def emitLoadBytes (idx : Nat) : List Nat :=
  let offset : Int := toI32 ((idx + 1) * 8)
  if offset ≤ 128 then
    [0xFF, 0x75, (((256 : Int) - offset) % 256).toNat]
  else
    [0x48, 0x8B, 0x85] ++ le32i (-offset) ++ [0x50]

/-- Bytes appended by `Compiler::emit_store` (src/elfgen.rs:129-143). -/
def emitStoreBytes (idx : Nat) : List Nat :=
  let offset : Int := toI32 ((idx + 1) * 8)
  [0x58] ++
    (if offset ≤ 128 then
      [0x48, 0x89, 0x45, (((256 : Int) - offset) % 256).toNat]
    else
      [0x48, 0x89, 0x85] ++ le32i (-offset))

/-- Bytes appended by `Compiler::emit_add` (src/elfgen.rs:148-157). -/
def emitAddBytes : List Nat := [0x5B, 0x58, 0x48, 0x01, 0xD8, 0x50]

/-- Bytes appended by `Compiler::emit_sub` (src/elfgen.rs:160-169). -/
def emitSubBytes : List Nat := [0x5B, 0x58, 0x48, 0x29, 0xD8, 0x50]

/-- Bytes appended by `Compiler::emit_mul` (src/elfgen.rs:172-181). -/
def emitMulBytes : List Nat := [0x5B, 0x58, 0x48, 0x0F, 0xAF, 0xC3, 0x50]

/-- Bytes appended by `Compiler::emit_div` (src/elfgen.rs:184-195):
pop rbx (divisor); pop rax (dividend); cqo; idiv rbx; push rax.
No comparison or branch is emitted. -/
def emitDivBytes : List Nat := [0x5B, 0x58, 0x48, 0x99, 0x48, 0xF7, 0xFB, 0x50]

/-- Body of the digit loop inside `Compiler::emit_print`
(src/elfgen.rs:242-255): xor rdx,rdx; div rbx; add dl,48; mov [rdi],dl;
dec rdi; test rax,rax. Its length feeds the backward jump displacement. -/
def printLoopBody : List Nat :=
  [0x48, 0x31, 0xD2, 0x48, 0xF7, 0xF3, 0x80, 0xC2, 0x30,
   0x88, 0x17, 0x48, 0xFF, 0xCF, 0x48, 0x85, 0xC0]

/-- Bytes appended by `Compiler::emit_print` (src/elfgen.rs:200-302).
The jnz displacement is `-(loop length + 2)` as a byte, exactly as the
source computes it from buffer positions. -/
def emitPrintBytes : List Nat :=
  [0x58, 0x53, 0x51, 0x52,
   0x48, 0x83, 0xEC, 0x14,
   0x48, 0x8D, 0x7C, 0x24, 0x13,
   0xC6, 0x07, 0x0A,
   0x48, 0xFF, 0xCF,
   0x48, 0x85, 0xC0,
   0x79, 0x05,
   0x48, 0xF7, 0xD8,
   0x6A, 0x01,
   0xEB, 0x02,
   0x6A, 0x00,
   0x48, 0xC7, 0xC3, 0x0A, 0x00, 0x00, 0x00] ++
  printLoopBody ++
  [0x75, ((-(printLoopBody.length + 2 : Int)) % 256).toNat] ++
  [0x58,
   0x84, 0xC0,
   0x74, 0x06,
   0xC6, 0x07, 0x2D,
   0x48, 0xFF, 0xCF,
   0x48, 0xFF, 0xC7,
   0x48, 0x8D, 0x74, 0x24, 0x14,
   0x48, 0x89, 0xF2,
   0x48, 0x29, 0xFA,
   0x48, 0x89, 0xFE,
   0x48, 0xC7, 0xC0, 0x01, 0x00, 0x00, 0x00,
   0x48, 0xC7, 0xC7, 0x01, 0x00, 0x00, 0x00,
   0x0F, 0x05,
   0x48, 0x83, 0xC4, 0x14,
   0x5A, 0x59, 0x5B]

/-- Bytes appended by `Compiler::emit_return` (src/elfgen.rs:305-314):
pop rdi; mov rax, 60 (sys_exit); syscall. -/
def emitReturnBytes : List Nat :=
  [0x5F, 0x48, 0xC7, 0xC0, 0x3C, 0x00, 0x00, 0x00, 0x0F, 0x05]

/-- Bytes appended by `Compiler::compile_instr` for one instruction
(src/elfgen.rs:78-91). -/
def compileInstrBytes : Instr → List Nat
  | .pushI32 n => emitPushI32Bytes n
  | .pop => emitPopDiscardBytes
  | .load idx => emitLoadBytes idx
  | .store idx => emitStoreBytes idx
  | .add => emitAddBytes
  | .sub => emitSubBytes
  | .mul => emitMulBytes
  | .div => emitDivBytes
  | .print => emitPrintBytes
  | .ret => emitReturnBytes

/-- Trailing implicit-exit sequence appended by `Compiler::compile_program`
after the body (src/elfgen.rs:42-48): xor edi,edi; mov rax,60; syscall. -/
def implicitExitBytes : List Nat :=
  [0x31, 0xFF, 0x48, 0xC7, 0xC0, 0x3C, 0x00, 0x00, 0x00, 0x0F, 0x05]

/-- All code bytes `compile_program` appends for the selected function:
prologue, then each instruction's lowering in order, then the implicit
exit sequence. -/
def funcCodeBytes (f : Func) : List Nat :=
  emitPrologueBytes f.n_locals ++
    (f.code.flatMap compileInstrBytes) ++ implicitExitBytes

/-- Fixed load address of the image (src/elfgen.rs:320, `BASE_VADDR`). -/
def BASE_VADDR : Nat := 0x400000

/-- File offset of the program header (src/elfgen.rs:322, `OFF_PROG_HDR`). -/
def OFF_PROG_HDR : Nat := 0x40

/-- File offset of the segment content (src/elfgen.rs:323, `OFF_CODE`). -/
def OFF_CODE : Nat := 0x1000

/-- Virtual address of the code (src/elfgen.rs:325, `code_vaddr`). -/
def code_vaddr : Nat := BASE_VADDR + OFF_CODE

/-- The `while elf.len() < n { elf.push(0) }` padding loops of
`generate_elf`: append zero bytes until the length reaches `n`. -/
def padTo (l : List Nat) (n : Nat) : List Nat :=
  l ++ List.replicate (n - l.length) 0

/-- The complete image bytes assembled by `Compiler::generate_elf`
(src/elfgen.rs:319-388) from the code and data buffers, field by field in
source order: e_ident, e_type, e_machine, e_version, e_entry, e_phoff,
e_shoff, e_flags, the six u16 size/count fields, padding to the program
header, the eight program-header fields, padding to the segment offset,
then the segment `code ++ data`. -/
def generateElfBytes (code data : List Nat) : List Nat :=
  let segment := code ++ data
  let ehdr :=
    [0x7F, 0x45, 0x4C, 0x46,
     0x02, 0x01, 0x01, 0x00,
     0x00, 0x00, 0x00, 0x00, 0x00, 0x00, 0x00, 0x00] ++
    le16 2 ++ le16 0x3E ++ le32n 1 ++
    le64 code_vaddr ++
    le64 OFF_PROG_HDR ++ le64 0 ++
    le32n 0 ++
    le16 64 ++ le16 56 ++ le16 1 ++ le16 0 ++ le16 0 ++ le16 0
  let phdr :=
    le32n 1 ++ le32n 5 ++
    le64 OFF_CODE ++ le64 code_vaddr ++ le64 code_vaddr ++
    le64 segment.length ++ le64 segment.length ++ le64 0x1000
  padTo (padTo ehdr OFF_PROG_HDR ++ phdr) OFF_CODE ++ segment

/-- Emitter state (src/elfgen.rs:9-13, `struct Compiler`). -/
structure Compiler where
  code : List Nat
  data : List Nat
  data_labels : List (Nat × String)
  deriving DecidableEq, Repr

/-- A freshly constructed compiler (src/elfgen.rs:16-22, `Compiler::new`). -/
def Compiler.new : Compiler := ⟨[], [], []⟩

/-- The `Compiler::compile_program` pipeline (src/elfgen.rs:25-52) up to and
including the in-memory image assembly: locate `main` (the `expect` panic on
a missing `main` is `none`), append the prologue, the lowering of each body
instruction, and the implicit exit sequence to `self.code`, then assemble
the ELF bytes from the accumulated buffers. The returned bytes are what
`generate_elf` writes to the output file. -/
def Compiler.compile_program (c : Compiler) (p : ProgramIR) :
    Option (Compiler × List Nat) :=
  match p.main_index with
  | none => none
  | some i =>
    match p.funcs.get? i with
    | none => none
    | some f =>
      let c2 : Compiler := { c with code := c.code ++ funcCodeBytes f }
      some (c2, generateElfBytes c2.code c2.data)

/-- Environment for the single file write performed by `generate_elf`
(src/elfgen.rs:390-398): the open/write either succeeds, fails to open, or
the device fails after accepting `k` bytes of the `write_all`. -/
inductive IoEnv
  | ok
  | openFail
  | writeFail (k : Nat)
  deriving DecidableEq, Repr

/-- Effect of `OpenOptions::create(true).write(true).truncate(true)` plus
`write_all` on the target path: `prev` is the file contents before the
build (`none` when no file exists). Opening truncates the file in place, so
a failing `write_all` leaves the prefix the device accepted. Returns
(success flag as seen by the caller, file contents after). -/
def persistElf (env : IoEnv) (prev : Option (List Nat)) (bytes : List Nat) :
    Bool × Option (List Nat) :=
  match env with
  | .ok => (true, some bytes)
  | .openFail => (false, prev)
  | .writeFail k => (false, some (bytes.take k))

/-- One whole build against the file-system model: compile from a fresh
`Compiler` (as `main.rs::compile_to_binary` does) and persist the image.
A compile-time abort (missing `main`) happens before the file is opened,
so the target is untouched. -/
def buildToFile (env : IoEnv) (prev : Option (List Nat)) (p : ProgramIR) :
    Bool × Option (List Nat) :=
  match Compiler.new.compile_program p with
  | none => (false, prev)
  | some (_, bytes) => persistElf env prev bytes

/-- Executing one function's instruction list in the tree-walking
interpreter (src/vm.rs:14-48, `VM::run` main loop): `stack` and `locals`
hold `i32` values; the instruction pointer only ever advances by one, so
the loop is a structural recursion over the instruction list. Rust panics
(locals indexing out of bounds, stack underflow, division by zero or
division overflow) are `none`; add/sub/mul wrap as in release builds.
Falling off the end returns 0 (src/vm.rs:47). -/
def runFrom : List Instr → List Int → List Int → Option Int
  | [], _, _ => some 0
  | instr :: rest, stack, locals =>
    match instr with
    | .pushI32 n => runFrom rest (n :: stack) locals
    | .pop => runFrom rest stack.tail locals
    | .load idx =>
      match locals.get? idx with
      | some v => runFrom rest (v :: stack) locals
      | none => none
    | .store idx =>
      match stack with
      | v :: s =>
        if idx < locals.length then runFrom rest s (locals.set idx v)
        else none
      | [] => none
    | .add =>
      match stack with
      | b :: a :: s => runFrom rest (i32wrap (a + b) :: s) locals
      | _ => none
    | .sub =>
      match stack with
      | b :: a :: s => runFrom rest (i32wrap (a - b) :: s) locals
      | _ => none
    | .mul =>
      match stack with
      | b :: a :: s => runFrom rest (i32wrap (a * b) :: s) locals
      | _ => none
    | .div =>
      match stack with
      | b :: a :: s =>
        if b = 0 ∨ (a = -(2 ^ 31) ∧ b = -1) then none
        else runFrom rest (a.tdiv b :: s) locals
      | _ => none
    | .print =>
      match stack with
      | _ :: s => runFrom rest s locals
      | [] => none
    | .ret =>
      match stack with
      | v :: _ => some v
      | [] => some 0

/-- The interpreter entry point (src/vm.rs:7-13): locate `main`, run its
code on an empty stack with `n_locals` zero-initialised locals. -/
def VM.run (p : ProgramIR) : Option Int :=
  match p.main_index with
  | none => none
  | some i =>
    match p.funcs.get? i with
    | none => none
    | some f => runFrom f.code [] (List.replicate f.n_locals 0)

/-! The AST subset consumed by `Codegen` (src/ast.rs), with the `Builtin`
enum flattened into `Expr` constructors and `Block` embedded as
`List Stmt`. Type annotations are kept as their name strings. -/

/-- Expressions (src/ast.rs `enum Expr` with `enum Builtin` inlined). -/
inductive Expr
  | number (n : Int)
  | ident (name : String)
  | printB (arg : Expr)
  | inputB
  | performB (name : String) (args : List Expr)
  | unary (op : String) (e : Expr)
  | binary (op : String) (l r : Expr)
  | call (name : String) (args : List Expr)

/-- Statements (src/ast.rs `enum Stmt`); `ifS`/`whileS` carry their blocks
but `Codegen` panics on them before looking inside. -/
inductive Stmt
  | varDecl (ty name : String) (value : Option Expr)
  | constDecl (ty name : String) (value : Expr)
  | assign (name : String) (value : Expr)
  | exprS (e : Expr)
  | returnS (e : Option Expr)
  | ifS (cond : Expr) (thenB : List Stmt) (elseB : Option (List Stmt))
  | whileS (cond : Expr) (body : List Stmt)

/-- Function definitions (src/ast.rs `struct FuncDef`); params are
(type name, variable name) pairs. -/
structure FuncDef where
  ret_type : String
  name : String
  params : List (String × String)
  body : List Stmt

/-- Top-level declarations (src/ast.rs `enum TopDecl`); the payloads the
code generator never reads are reduced to the fields it does read. -/
inductive TopDecl
  | structD (name : String)
  | constD (ty name : String) (value : Expr)
  | funcD (f : FuncDef)
  | varD (ty name : String) (value : Option Expr)
  | effectD (name : String)

/-- A parsed program (src/ast.rs `struct Program`). -/
structure ProgramAst where
  decls : List TopDecl

/-- Local slot environment (src/codegen.rs:151-156, `struct LocalEnv`):
the name-to-slot map as an association list, the names in allocation
order, and the next free slot. -/
structure LocalEnv where
  map : List (String × Nat)
  names : List String
  next : Nat

/-- The default-initialised environment. -/
def LocalEnv.empty : LocalEnv := ⟨[], [], 0⟩

/-- Slot lookup (src/codegen.rs:169-171, `LocalEnv::lookup`). -/
def LocalEnv.lookup (env : LocalEnv) (n : String) : Option Nat :=
  List.lookup n env.map

/-- Slot allocation with de-duplication (src/codegen.rs:159-168,
`LocalEnv::alloc`): an existing name keeps its slot, a new name gets the
next dense index. -/
def LocalEnv.alloc (env : LocalEnv) (n : String) : LocalEnv × Nat :=
  match env.lookup n with
  | some i => (env, i)
  | none =>
    ({ map := (n, env.next) :: env.map,
       names := env.names ++ [n],
       next := env.next + 1 }, env.next)

/-- The index-to-name table (src/codegen.rs:172-178,
`LocalEnv::reverse_names`): since `alloc` appends each new name at its own
slot index, this is the `names` list. -/
def LocalEnv.reverse_names (env : LocalEnv) : List String := env.names

/-- Global constant pool built by `Codegen::compile`
(src/codegen.rs:16-24): each top-level const with a literal number value is
inserted (later inserts shadow earlier ones, as in the hash map). -/
def collectGlobals (decls : List TopDecl) : List (String × Int) :=
  decls.foldl
    (fun m d =>
      match d with
      | .constD _ name (.number n) => (name, i32wrap n) :: m
      | _ => m)
    []

/-- Instructions appended by `Codegen::emit_expr` (src/codegen.rs:117-149);
panics (`perform`, unary/binary/call expressions, undeclared variables)
are `none`. -/
def emitExpr (globals : List (String × Int)) (env : LocalEnv) :
    Expr → Option (List Instr)
  | .number n => some [.pushI32 (i32wrap n)]
  | .ident name =>
    match env.lookup name with
    | some idx => some [.load idx]
    | none =>
      match List.lookup name globals with
      | some v => some [.pushI32 v]
      | none => none
  | .printB arg => (emitExpr globals env arg).map (· ++ [.print])
  | .inputB => some [.pushI32 0]
  | .performB _ _ => none
  | .unary _ _ => none
  | .binary _ _ _ => none
  | .call _ _ => none

/-- Instructions appended by `Codegen::emit_stmt` (src/codegen.rs:69-115),
threading the (mutable in Rust) environment; note that a declared
variable's slot is allocated before its initialiser is emitted. -/
def emitStmt (globals : List (String × Int)) (env : LocalEnv) :
    Stmt → Option (LocalEnv × List Instr)
  | .varDecl _ name value =>
    let (env2, idx) := env.alloc name
    (match value with
     | some e => (emitExpr globals env2 e).map (fun c => (env2, c ++ [.store idx]))
     | none => some (env2, [.pushI32 0, .store idx]))
  | .constDecl _ name value =>
    let (env2, idx) := env.alloc name
    (emitExpr globals env2 value).map (fun c => (env2, c ++ [.store idx]))
  | .assign name value =>
    match env.lookup name with
    | some idx => (emitExpr globals env value).map (fun c => (env, c ++ [.store idx]))
    | none => none
  | .exprS e => (emitExpr globals env e).map (fun c => (env, c ++ [.pop]))
  | .returnS value =>
    (match value with
     | some e => (emitExpr globals env e).map (fun c => (env, c ++ [.ret]))
     | none => some (env, [.ret]))
  | .ifS _ _ _ => none
  | .whileS _ _ => none

/-- Instructions appended by `Codegen::emit_block` (src/codegen.rs:62-67):
statements in order, environment threaded left to right. -/
def emitBlock (globals : List (String × Int)) :
    List Stmt → LocalEnv → Option (LocalEnv × List Instr)
  | [], env => some (env, [])
  | s :: rest, env =>
    match emitStmt globals env s with
    | none => none
    | some (env1, c1) =>
      match emitBlock globals rest env1 with
      | none => none
      | some (env2, c2) => some (env2, c1 ++ c2)

/-- One function's compilation (src/codegen.rs:39-60,
`Codegen::compile_func`): allocate parameter slots left to right, emit the
body, then unconditionally append a trailing `Ret`. -/
def compileFunc (globals : List (String × Int)) (f : FuncDef) : Option Func :=
  let env0 := f.params.foldl (fun e p => (e.alloc p.2).1) LocalEnv.empty
  (emitBlock globals f.body env0).map fun (env, code) =>
    { name := f.name,
      code := code ++ [.ret],
      n_locals := env.next,
      locals_dbg := env.reverse_names }

/-- The function-list traversal of `Codegen::compile`
(src/codegen.rs:26-34): non-function declarations emit no code. -/
def compileDecls (globals : List (String × Int)) :
    List TopDecl → Option (List Func)
  | [] => some []
  | .funcD f :: rest =>
    match compileFunc globals f with
    | none => none
    | some fc =>
      match compileDecls globals rest with
      | none => none
      | some fs => some (fc :: fs)
  | _ :: rest => compileDecls globals rest

/-- The whole `Codegen::compile` pass (src/codegen.rs:12-37). -/
def Codegen.compile (p : ProgramAst) : Option ProgramIR :=
  (compileDecls (collectGlobals p.decls) p.decls).map ProgramIR.mk

/-! Constant slices of the image and concrete example programs used by the
claim theorems. -/

/-- The first 96 bytes of every produced image: the 64-byte ELF header
(whose only program-dependent field, e_entry, is the constant 0x401000)
followed by the program header up to but not including p_filesz. -/
def elfPre96 : List Nat :=
  [0x7F, 0x45, 0x4C, 0x46, 2, 1, 1, 0, 0, 0, 0, 0, 0, 0, 0, 0,
   2, 0, 62, 0, 1, 0, 0, 0,
   0, 16, 64, 0, 0, 0, 0, 0,
   64, 0, 0, 0, 0, 0, 0, 0,
   0, 0, 0, 0, 0, 0, 0, 0,
   0, 0, 0, 0,
   64, 0, 56, 0, 1, 0, 0, 0, 0, 0, 0, 0,
   1, 0, 0, 0, 5, 0, 0, 0,
   0, 16, 0, 0, 0, 0, 0, 0,
   0, 16, 64, 0, 0, 0, 0, 0,
   0, 16, 64, 0, 0, 0, 0, 0]

/-- The full 120-byte header region of an image whose segment has length
`segLen`: `elfPre96`, then p_filesz, p_memsz, and p_align. -/
def elfHeaders (segLen : Nat) : List Nat :=
  elfPre96 ++ le64 segLen ++ le64 segLen ++ [0, 16, 0, 0, 0, 0, 0, 0]

/-- A `main` computing `10 / 3` and returning it. -/
def progDivA : ProgramIR :=
  ⟨[⟨"main", [.pushI32 10, .pushI32 3, .div, .ret], 0, []⟩]⟩

/-- A `main` computing `-7 / 2` and returning it. -/
def progDivB : ProgramIR :=
  ⟨[⟨"main", [.pushI32 (-7), .pushI32 2, .div, .ret], 0, []⟩]⟩

/-- A `main` whose only Load refers to slot 5 although it declares no
local slots at all: every load index is outside `[0, n_locals)`. -/
def funcOob : Func := ⟨"main", [.load 5, .ret], 0, []⟩

/-- The program consisting of just `funcOob`. -/
def progOob : ProgramIR := ⟨[funcOob]⟩

/-- A program with no function named `main`. -/
def progNoMain : ProgramIR := ⟨[⟨"helper", [.ret], 0, []⟩]⟩

/-- A function not named `main`. -/
def helperFunc : Func := ⟨"helper", [.ret], 0, []⟩

/-- A `main` returning 7. -/
def mainFunc7 : Func := ⟨"main", [.pushI32 7, .ret], 0, []⟩

/-- A program whose `main` is second in the function list. -/
def progTwoFuncs : ProgramIR := ⟨[helperFunc, mainFunc7]⟩

/-- The AST of `i32 main() { return 0; }`. -/
def astRet0 : ProgramAst :=
  ⟨[.funcD ⟨"i32", "main", [], [.returnS (some (.number 0))]⟩]⟩

/-- The IR `Codegen.compile` produces for `astRet0`. -/
def irRet0 : ProgramIR := ⟨[⟨"main", [.pushI32 0, .ret, .ret], 0, []⟩]⟩

/-! Helper lemmas shared by the claim theorems. -/

lemma elfHeaders_length (l : Nat) : (elfHeaders l).length = 120 := rfl

lemma generateElf_normal (code data : List Nat) :
    generateElfBytes code data =
      (elfHeaders ((code ++ data).length) ++ List.replicate 3976 0) ++
        (code ++ data) := rfl

lemma elfHead_length (l : Nat) :
    (elfHeaders l ++ List.replicate 3976 0).length = 4096 := by
  rw [List.length_append, elfHeaders_length, List.length_replicate]

lemma elf_drop4096 (code data : List Nat) :
    (generateElfBytes code data).drop 4096 = code ++ data := by
  rw [generateElf_normal, List.drop_left' (elfHead_length _)]

lemma elf_pad (code data : List Nat) (k : Nat) (h1 : 120 ≤ k) (h2 : k < 4096) :
    (generateElfBytes code data)[k]? = some 0 := by
  rw [generateElf_normal, List.getElem?_append_left (by rw [elfHead_length _]; exact h2),
    List.getElem?_append_right (by rw [elfHeaders_length]; exact h1),
    elfHeaders_length, List.getElem?_replicate, if_pos (by omega)]

lemma elf_length (code data : List Nat) :
    (generateElfBytes code data).length = 4096 + (code.length + data.length) := by
  rw [generateElf_normal, List.length_append, elfHead_length, List.length_append]

lemma decLe_le64 (n : Nat) : decLe (le64 n) = n % 2 ^ 64 := by
  simp [decLe, le64]; omega

/-- C3: the produced image's first four bytes are the ELF magic; the
program header's p_filesz (file bytes 96..104) and p_memsz (104..112)
decode to exactly code length + data length; p_offset (72..80) decodes to
the fixed segment offset 0x1000, the bytes from the end of the headers
(byte 120) up to 0x1000 are all zero, and the segment content at 0x1000 is
exactly code ++ data; p_align (112..120) decodes to 0x1000 and the segment
offset is a multiple of it; and e_entry (24..32) and p_vaddr (80..88) both
decode to 0x400000 + 0x1000, the start of the code buffer. -/
theorem c3_layout (code data : List Nat) (h : code.length + data.length < 2 ^ 64) :
    (generateElfBytes code data).take 4 = [0x7F, 0x45, 0x4C, 0x46] ∧
    decLe (((generateElfBytes code data).drop 96).take 8) = code.length + data.length ∧
    decLe (((generateElfBytes code data).drop 104).take 8) = code.length + data.length ∧
    decLe (((generateElfBytes code data).drop 72).take 8) = OFF_CODE ∧
    (∀ k, 120 ≤ k → k < 4096 → (generateElfBytes code data)[k]? = some 0) ∧
    (generateElfBytes code data).drop 4096 = code ++ data ∧
    decLe (((generateElfBytes code data).drop 112).take 8) = 0x1000 ∧
    OFF_CODE % 0x1000 = 0 ∧
    decLe (((generateElfBytes code data).drop 24).take 8) = BASE_VADDR + OFF_CODE ∧
    decLe (((generateElfBytes code data).drop 80).take 8) = BASE_VADDR + OFF_CODE := by
  have h96 : ((generateElfBytes code data).drop 96).take 8 =
      le64 ((code ++ data).length) := rfl
  have h104 : ((generateElfBytes code data).drop 104).take 8 =
      le64 ((code ++ data).length) := rfl
  have h72 : ((generateElfBytes code data).drop 72).take 8 =
      [0, 16, 0, 0, 0, 0, 0, 0] := rfl
  have h112 : ((generateElfBytes code data).drop 112).take 8 =
      [0, 16, 0, 0, 0, 0, 0, 0] := rfl
  have h24 : ((generateElfBytes code data).drop 24).take 8 =
      [0, 16, 64, 0, 0, 0, 0, 0] := rfl
  have h80 : ((generateElfBytes code data).drop 80).take 8 =
      [0, 16, 64, 0, 0, 0, 0, 0] := rfl
  refine ⟨rfl, ?_, ?_, ?_, elf_pad code data, elf_drop4096 code data, ?_, ?_, ?_, ?_⟩
  · rw [h96, decLe_le64, List.length_append, Nat.mod_eq_of_lt h]
  · rw [h104, decLe_le64, List.length_append, Nat.mod_eq_of_lt h]
  · rw [h72]; norm_num [decLe, OFF_CODE]
  · rw [h112]; norm_num [decLe]
  · norm_num [OFF_CODE]
  · rw [h24]; norm_num [decLe, BASE_VADDR, OFF_CODE]
  · rw [h80]; norm_num [decLe, BASE_VADDR, OFF_CODE]

/-- Witness for C3 at the one-byte code buffer [0x90] and one-byte data
buffer [0x2A]. -/
theorem c3_witness :
    ([(0x90 : Nat)].length + [(0x2A : Nat)].length < 2 ^ 64) ∧
    ((generateElfBytes [0x90] [0x2A]).take 4 = [0x7F, 0x45, 0x4C, 0x46] ∧
     decLe (((generateElfBytes [0x90] [0x2A]).drop 96).take 8) =
       [(0x90 : Nat)].length + [(0x2A : Nat)].length ∧
     decLe (((generateElfBytes [0x90] [0x2A]).drop 104).take 8) =
       [(0x90 : Nat)].length + [(0x2A : Nat)].length ∧
     decLe (((generateElfBytes [0x90] [0x2A]).drop 72).take 8) = OFF_CODE ∧
     (∀ k, 120 ≤ k → k < 4096 → (generateElfBytes [0x90] [0x2A])[k]? = some 0) ∧
     (generateElfBytes [0x90] [0x2A]).drop 4096 = [0x90] ++ [0x2A] ∧
     decLe (((generateElfBytes [0x90] [0x2A]).drop 112).take 8) = 0x1000 ∧
     OFF_CODE % 0x1000 = 0 ∧
     decLe (((generateElfBytes [0x90] [0x2A]).drop 24).take 8) = BASE_VADDR + OFF_CODE ∧
     decLe (((generateElfBytes [0x90] [0x2A]).drop 80).take 8) = BASE_VADDR + OFF_CODE) :=
  ⟨by norm_num, c3_layout [0x90] [0x2A] (by norm_num)⟩

lemma toI32_eq (n : Nat) (h : n < 2 ^ 31) : toI32 n = (n : Int) := by
  unfold toI32 i32wrap; omega

lemma decLe_le32n (n : Nat) : decLe (le32n n) = n % 2 ^ 32 := by
  simp [decLe, le32n]; omega

lemma decLe_le32i (m : Int) : decLe (le32i m) = (m % 2 ^ 32).toNat := by
  rw [le32i, decLe_le32n]; omega

/-- Unfolded form of `emitLoadBytes`. -/
lemma emitLoadBytes_eq (i : Nat) :
    emitLoadBytes i =
      if toI32 ((i + 1) * 8) ≤ 128 then
        [0xFF, 0x75, (((256 : Int) - toI32 ((i + 1) * 8)) % 256).toNat]
      else
        [0x48, 0x8B, 0x85] ++ le32i (-(toI32 ((i + 1) * 8))) ++ [0x50] := rfl

/-- Unfolded form of `emitStoreBytes`. -/
lemma emitStoreBytes_eq (i : Nat) :
    emitStoreBytes i =
      [0x58] ++
        (if toI32 ((i + 1) * 8) ≤ 128 then
          [0x48, 0x89, 0x45, (((256 : Int) - toI32 ((i + 1) * 8)) % 256).toNat]
        else
          [0x48, 0x89, 0x85] ++ le32i (-(toI32 ((i + 1) * 8)))) := rfl

/-- Unfolded form of `emitPrologueBytes`. -/
lemma emitPrologueBytes_eq (n : Nat) :
    emitPrologueBytes n =
      [0x55] ++ [0x48, 0x89, 0xE5] ++
        (if n > 0 then
          if toI32 (n * 8) ≤ 127 then
            [0x48, 0x83, 0xEC, (toI32 (n * 8) % 256).toNat]
          else
            [0x48, 0x81, 0xEC] ++ le32i (toI32 (n * 8))
        else []) := rfl

/-- C5 (amended): for every slot index `i` with `(i+1)*8 < 2^31` (so that
the `as i32` cast of the frame offset is value-preserving), both Load and
Store use the one-byte displacement encoding exactly when `(i+1)*8 ≤ 128`
and the four-byte encoding otherwise, the one-byte case emits the
two's-complement byte of `-(i+1)*8`, and the four-byte case emits the
little-endian signed 32-bit bytes of `-(i+1)*8`. -/
theorem c5_amended_slot_encoding (i : Nat) (h : (i + 1) * 8 < 2 ^ 31) :
    ((i + 1) * 8 ≤ 128 →
      emitLoadBytes i = [0xFF, 0x75, ((-(((i : Int) + 1) * 8)) % 256).toNat] ∧
      emitStoreBytes i = [0x58, 0x48, 0x89, 0x45, ((-(((i : Int) + 1) * 8)) % 256).toNat]) ∧
    (128 < (i + 1) * 8 →
      emitLoadBytes i = [0x48, 0x8B, 0x85] ++ le32i (-(((i : Int) + 1) * 8)) ++ [0x50] ∧
      emitStoreBytes i = [0x58, 0x48, 0x89, 0x85] ++ le32i (-(((i : Int) + 1) * 8))) := by
  have hoff : toI32 ((i + 1) * 8) = ((i : Int) + 1) * 8 := by
    rw [toI32_eq _ h]; push_cast; ring
  constructor
  · intro hle
    have hc : toI32 ((i + 1) * 8) ≤ 128 := by rw [hoff]; omega
    have hbyte : (((256 : Int) - toI32 ((i + 1) * 8)) % 256).toNat =
        ((-(((i : Int) + 1) * 8)) % 256).toNat := by rw [hoff]; omega
    refine ⟨?_, ?_⟩
    · rw [emitLoadBytes_eq, if_pos hc, hbyte]
    · rw [emitStoreBytes_eq, if_pos hc, hbyte]; simp
  · intro hgt
    have hc : ¬ toI32 ((i + 1) * 8) ≤ 128 := by rw [hoff]; omega
    refine ⟨?_, ?_⟩
    · rw [emitLoadBytes_eq, if_neg hc, hoff]
    · rw [emitStoreBytes_eq, if_neg hc, hoff]; simp

/-- Counterexample to C5 as stated: at slot index `2^29` the frame offset
`(2^29 + 1) * 8` exceeds 128, so the claim requires the four-byte
displacement encoding, but the `as i32` cast wraps the offset to 8 and the
emitter produces the one-byte encoding of slot 0's displacement instead. -/
theorem c5_counterexample :
    128 < (2 ^ 29 + 1) * 8 ∧
    emitLoadBytes (2 ^ 29) = [0xFF, 0x75, 0xF8] ∧
    emitLoadBytes (2 ^ 29) ≠
      [0x48, 0x8B, 0x85] ++ le32i (-((((2 ^ 29 : Nat) : Int) + 1) * 8)) ++ [0x50] :=
  ⟨by norm_num, by decide, by decide⟩

/-- Witness for C5 (amended) at slot index 16, which takes the four-byte
tier. -/
theorem c5_witness :
    ((16 + 1) * 8 < 2 ^ 31) ∧ (128 < (16 + 1) * 8) ∧
    emitLoadBytes 16 = [0x48, 0x8B, 0x85] ++ le32i (-((((16 : Nat) : Int) + 1) * 8)) ++ [0x50] ∧
    emitStoreBytes 16 = [0x58, 0x48, 0x89, 0x85] ++ le32i (-((((16 : Nat) : Int) + 1) * 8)) :=
  ⟨by norm_num, by norm_num,
    ((c5_amended_slot_encoding 16 (by norm_num)).2 (by norm_num)).1,
    ((c5_amended_slot_encoding 16 (by norm_num)).2 (by norm_num)).2⟩

/-- C6: executing `Ret` returns the top of the operand stack as the exit
status, or 0 when the stack is empty, ignoring all remaining instructions;
and the emitted lowering pops the exit status into rdi and invokes
sys_exit. -/
theorem c6_ret_semantics (rest : List Instr) (stack locals : List Int) :
    runFrom (Instr.ret :: rest) stack locals = some (stack.headD 0) ∧
    emitReturnBytes = [0x5F, 0x48, 0xC7, 0xC0, 0x3C, 0x00, 0x00, 0x00, 0x0F, 0x05] := by
  refine ⟨?_, rfl⟩
  cases stack <;> rfl

/-- C7 (amended): the prologue always begins with push rbp; mov rbp, rsp;
no reservation is emitted when `n_locals = 0`; for `0 < n_locals` with
`n_locals * 8 < 2^31` (so the `as i32` cast is value-preserving) the
encoded subtraction immediate equals `n_locals * 8` exactly, in the
one-byte form when `n_locals * 8 ≤ 127` and the four-byte form otherwise;
and the slot-offset map `i ↦ (i+1)*8` is injective. -/
theorem c7_amended_prologue :
    (emitPrologueBytes 0 = [0x55, 0x48, 0x89, 0xE5]) ∧
    (∀ n : Nat, 0 < n → n * 8 ≤ 127 →
      emitPrologueBytes n = [0x55, 0x48, 0x89, 0xE5, 0x48, 0x83, 0xEC, n * 8]) ∧
    (∀ n : Nat, 127 < n * 8 → n * 8 < 2 ^ 31 →
      emitPrologueBytes n =
        [0x55, 0x48, 0x89, 0xE5, 0x48, 0x81, 0xEC] ++ le32i ((n : Int) * 8) ∧
      decLe (le32i ((n : Int) * 8)) = n * 8) ∧
    (∀ i j : Nat, (i + 1) * 8 = (j + 1) * 8 → i = j) := by
  refine ⟨rfl, ?_, ?_, ?_⟩
  · intro n hn hle
    have ht : toI32 (n * 8) = ((n * 8 : Nat) : Int) := toI32_eq _ (by omega)
    have hb : (toI32 (n * 8) % 256).toNat = n * 8 := by rw [ht]; omega
    rw [emitPrologueBytes_eq, if_pos hn, if_pos (by rw [ht]; omega), hb]
    rfl
  · intro n hgt hlt
    have ht : toI32 (n * 8) = ((n * 8 : Nat) : Int) := toI32_eq _ hlt
    have hcast : ((n * 8 : Nat) : Int) = (n : Int) * 8 := by push_cast; ring
    refine ⟨?_, ?_⟩
    · rw [emitPrologueBytes_eq, if_pos (by omega), if_neg (by rw [ht]; omega), ht, hcast]
      rfl
    · rw [decLe_le32i]; omega
  · intro i j hij; omega

/-- Counterexample to C7 as stated: at `n_locals = 2^29` the stack size
`2^29 * 8 = 2^32` wraps to 0 under the `as i32` cast, so the emitted
prologue encodes the subtraction immediate 0, not `n_locals * 8`. -/
theorem c7_counterexample :
    emitPrologueBytes (2 ^ 29) = [0x55, 0x48, 0x89, 0xE5, 0x48, 0x83, 0xEC, 0x00] ∧
    (0 : Nat) ≠ 2 ^ 29 * 8 :=
  ⟨by decide, by norm_num⟩

/-- Witness for C7 (amended) at `n_locals = 1` (one-byte tier) and
`n_locals = 100` (four-byte tier). -/
theorem c7_witness :
    (0 < 1 ∧ 1 * 8 ≤ 127 ∧
      emitPrologueBytes 1 = [0x55, 0x48, 0x89, 0xE5, 0x48, 0x83, 0xEC, 1 * 8]) ∧
    (127 < 100 * 8 ∧ 100 * 8 < 2 ^ 31 ∧
      emitPrologueBytes 100 =
        [0x55, 0x48, 0x89, 0xE5, 0x48, 0x81, 0xEC] ++ le32i (((100 : Nat) : Int) * 8)) :=
  ⟨⟨by norm_num, by norm_num, c7_amended_prologue.2.1 1 (by norm_num) (by norm_num)⟩,
   ⟨by norm_num, by norm_num,
     (c7_amended_prologue.2.2.1 100 (by norm_num) (by norm_num)).1⟩⟩

/-- C8: `Div` pops the divisor, then the dividend, and pushes the
truncating signed quotient (`Int.tdiv`), so 10/3 = 3 and -7/2 = -3 both as
interpreter runs and as integer facts; and the emitted lowering is exactly
pop rbx; pop rax; cqo; idiv rbx; push rax, which contains no
divide-by-zero check. -/
theorem c8_div_semantics :
    (∀ (rest : List Instr) (stack locals : List Int) (a b : Int),
      b ≠ 0 → ¬(a = -(2 ^ 31) ∧ b = -1) →
      runFrom (Instr.div :: rest) (b :: a :: stack) locals =
        runFrom rest (a.tdiv b :: stack) locals) ∧
    VM.run progDivA = some 3 ∧
    VM.run progDivB = some (-3) ∧
    Int.tdiv 10 3 = 3 ∧ Int.tdiv (-7) 2 = -3 ∧
    emitDivBytes = [0x5B, 0x58, 0x48, 0x99, 0x48, 0xF7, 0xFB, 0x50] := by
  refine ⟨?_, by decide, by decide, by decide, by decide, rfl⟩
  intro rest stack locals a b hb hov
  show (if b = 0 ∨ (a = -(2 ^ 31) ∧ b = -1) then none
        else runFrom rest (a.tdiv b :: stack) locals) = _
  rw [if_neg (by tauto)]

/-- Witness for C8 at dividend 10, divisor 3. -/
theorem c8_witness :
    (3 : Int) ≠ 0 ∧ ¬((10 : Int) = -(2 ^ 31) ∧ (3 : Int) = -1) ∧
    runFrom [Instr.div] [3, 10] [] = runFrom [] [Int.tdiv 10 3] [] :=
  ⟨by norm_num, by norm_num,
    c8_div_semantics.1 [] [] [] 10 3 (by norm_num) (by norm_num)⟩

lemma findIdx?_lt_length {α : Type} (p : α → Bool) :
    ∀ (l : List α) (i : Nat), l.findIdx? p = some i → i < l.length := by
  intro l
  induction l with
  | nil => intro i h; simp [List.findIdx?] at h
  | cons a l ih =>
    intro i h
    rw [List.findIdx?_cons] at h
    by_cases hp : p a
    · simp [hp] at h; simp [List.length_cons]; omega
    · rw [if_neg (by simp [hp]), List.findIdx?_succ] at h
      simp only [Option.map_eq_some'] at h
      obtain ⟨j, hj, hji⟩ := h
      have := ih j hj
      simp only [List.length_cons]
      omega

lemma findIdx?_of_take {α : Type} (p : α → Bool) :
    ∀ (l : List α) (i : Nat) (x : α), l.get? i = some x → p x = true →
      (∀ y ∈ l.take i, p y = false) → l.findIdx? p = some i := by
  intro l
  induction l with
  | nil => intro i x h; simp at h
  | cons a l ih =>
    intro i x hget hp htake
    cases i with
    | zero =>
      simp only [List.get?] at hget
      rw [List.findIdx?_cons, if_pos (by cases hget; exact hp)]
    | succ n =>
      have ha : p a = false := htake a (by simp [List.take])
      rw [List.findIdx?_cons, if_neg (by simp [ha]), List.findIdx?_succ,
        ih n x (by simpa using hget) hp
          (fun y hy => htake y (by simp [List.take]; exact Or.inr hy))]
      rfl

/-- C4: with no function named `main`, `compile_program` aborts before
assembling or emitting anything (`none`: no image is produced and no file
is written); and when some function named `main` exists, the first one in
list order (located by name) is the one whose lowering makes up the image,
wherever it sits in the list. -/
theorem c4_main_lookup (c : Compiler) (p : ProgramIR) :
    ((∀ f ∈ p.funcs, f.name ≠ "main") → c.compile_program p = none) ∧
    (∀ i f, p.funcs.get? i = some f → f.name = "main" →
      (∀ g ∈ p.funcs.take i, g.name ≠ "main") →
      c.compile_program p =
        some ({ c with code := c.code ++ funcCodeBytes f },
          generateElfBytes (c.code ++ funcCodeBytes f) c.data)) := by
  constructor
  · intro h
    have hm : p.main_index = none := by
      rw [ProgramIR.main_index, List.findIdx?_eq_none_iff]
      intro x hx
      simp [h x hx]
    unfold Compiler.compile_program
    rw [hm]
  · intro i f hget hname htake
    have hm : p.main_index = some i := by
      rw [ProgramIR.main_index]
      exact findIdx?_of_take _ p.funcs i f hget (by simp [hname])
        (fun y hy => by simp [htake y hy])
    unfold Compiler.compile_program
    simp only [hm, hget]

/-- Witness for C4 at a program whose `main` sits at index 1, behind a
function named `helper`. -/
theorem c4_witness :
    progTwoFuncs.funcs.get? 1 = some mainFunc7 ∧
    mainFunc7.name = "main" ∧
    (∀ g ∈ progTwoFuncs.funcs.take 1, g.name ≠ "main") ∧
    Compiler.new.compile_program progTwoFuncs =
      some ({ Compiler.new with code := Compiler.new.code ++ funcCodeBytes mainFunc7 },
        generateElfBytes (Compiler.new.code ++ funcCodeBytes mainFunc7) Compiler.new.data) :=
  ⟨by decide, rfl, by decide,
    (c4_main_lookup Compiler.new progTwoFuncs).2 1 mainFunc7 (by decide) rfl (by decide)⟩

/-- Counterexample to C1 as stated: `funcOob`'s body loads slot 5 while
declaring zero locals, yet the build is not rejected — compilation
succeeds and, with a healthy file system, an output file is written. -/
theorem c1_counterexample :
    Instr.load 5 ∈ funcOob.code ∧ funcOob.n_locals = 0 ∧
    (Compiler.new.compile_program progOob).isSome = true ∧
    (buildToFile IoEnv.ok none progOob).1 = true ∧
    (buildToFile IoEnv.ok none progOob).2.isSome = true :=
  ⟨by decide, rfl, rfl, rfl, rfl⟩

/-- C1 (amended): the backend performs no slot-range check at all: for
every compiler state and every program that has a `main` function,
`compile_program` succeeds and produces an image, whatever slot indices
its Load and Store instructions carry; only a missing `main` aborts the
build. -/
theorem c1_amended_no_rejection (c : Compiler) (p : ProgramIR)
    (h : p.main_index.isSome = true) : (c.compile_program p).isSome = true := by
  obtain ⟨i, hi⟩ := Option.isSome_iff_exists.mp h
  have hlt : i < p.funcs.length := findIdx?_lt_length _ p.funcs i hi
  have hget : p.funcs.get? i = some (p.funcs.get ⟨i, hlt⟩) := List.get?_eq_get hlt
  unfold Compiler.compile_program
  rw [hi]
  simp only [hget, Option.isSome_some]

/-- Witness for C1 (amended) at the out-of-range program `progOob`. -/
theorem c1_witness :
    progOob.main_index.isSome = true ∧
    (Compiler.new.compile_program progOob).isSome = true :=
  ⟨rfl, c1_amended_no_rejection Compiler.new progOob rfl⟩

/-- Counterexample to C2 as stated: compiling `progOob` succeeds, and when
the device fails after accepting 4 bytes of the `write_all`, the build
fails but a truncated, non-zero-length artifact — the first four image
bytes, the ELF magic — remains at the target path, strictly shorter than
the full image. -/
theorem c2_counterexample :
    (buildToFile (IoEnv.writeFail 4) none progOob).1 = false ∧
    (buildToFile (IoEnv.writeFail 4) none progOob).2 = some [0x7F, 0x45, 0x4C, 0x46] ∧
    (buildToFile IoEnv.ok none progOob).2 =
      some (generateElfBytes (funcCodeBytes funcOob) []) ∧
    4 < (generateElfBytes (funcCodeBytes funcOob) []).length := by
  refine ⟨rfl, rfl, rfl, ?_⟩
  rw [elf_length]
  omega

/-- C2 (amended): every failed build is surfaced to the caller as a
failure: a compile-time rejection happens before the file is opened and
leaves the target untouched, and so does a failure to open the target; a
build reports success only when compilation succeeded and the write
completed. (When the device fails mid-write, however, a truncated prefix
of the image may remain at the target, since the file is truncated in
place and written directly.) -/
theorem c2_amended (env : IoEnv) (prev : Option (List Nat)) (p : ProgramIR) :
    (Compiler.new.compile_program p = none → buildToFile env prev p = (false, prev)) ∧
    (∀ k, env = IoEnv.writeFail k → (buildToFile env prev p).1 = false) ∧
    (env = IoEnv.openFail →
      (buildToFile env prev p).1 = false ∧ (buildToFile env prev p).2 = prev) ∧
    ((buildToFile env prev p).1 = true →
      env = IoEnv.ok ∧ (Compiler.new.compile_program p).isSome = true) := by
  refine ⟨?_, ?_, ?_, ?_⟩
  · intro h
    simp [buildToFile, h]
  · rintro k rfl
    cases hcp : Compiler.new.compile_program p with
    | none => simp [buildToFile, hcp]
    | some r =>
      obtain ⟨c2, bytes⟩ := r
      simp [buildToFile, hcp, persistElf]
  · rintro rfl
    cases hcp : Compiler.new.compile_program p with
    | none => simp [buildToFile, hcp]
    | some r =>
      obtain ⟨c2, bytes⟩ := r
      simp [buildToFile, hcp, persistElf]
  · intro h
    cases hcp : Compiler.new.compile_program p with
    | none => rw [buildToFile, hcp] at h; simp at h
    | some r =>
      obtain ⟨c2, bytes⟩ := r
      cases env with
      | ok => simp [hcp]
      | openFail => rw [buildToFile, hcp] at h; simp [persistElf] at h
      | writeFail k => rw [buildToFile, hcp] at h; simp [persistElf] at h

/-- Witness for C2 (amended): an open failure leaves the previous file
contents alone, and a compile-time rejection (no `main`) touches nothing. -/
theorem c2_witness :
    (buildToFile IoEnv.openFail (some [9]) progOob).1 = false ∧
    (buildToFile IoEnv.openFail (some [9]) progOob).2 = some [9] ∧
    buildToFile IoEnv.ok none progNoMain = (false, none) :=
  ⟨((c2_amended IoEnv.openFail (some [9]) progOob).2.2.1 rfl).1,
   ((c2_amended IoEnv.openFail (some [9]) progOob).2.2.1 rfl).2,
   (c2_amended IoEnv.ok none progNoMain).1 rfl⟩

/-- C9: the image bytes are a deterministic function of the input program:
two builds each starting from a freshly constructed compiler (its own
empty code and data buffers) produce the same bytes, and two successful
builds of the same program against the file-system model leave identical
file contents regardless of what was at the target path before. -/
theorem c9_deterministic :
    (∀ (c1 c2 : Compiler) (p : ProgramIR), c1 = Compiler.new → c2 = Compiler.new →
      (c1.compile_program p).map Prod.snd = (c2.compile_program p).map Prod.snd) ∧
    (∀ (p : ProgramIR) (prev1 prev2 out1 out2 : Option (List Nat)),
      buildToFile IoEnv.ok prev1 p = (true, out1) →
      buildToFile IoEnv.ok prev2 p = (true, out2) → out1 = out2) := by
  constructor
  · rintro c1 c2 p rfl rfl; rfl
  · intro p prev1 prev2 out1 out2 h1 h2
    cases hcp : Compiler.new.compile_program p with
    | none =>
      rw [buildToFile, hcp] at h1
      simp at h1
    | some r =>
      obtain ⟨c2, bytes⟩ := r
      rw [buildToFile, hcp] at h1
      rw [buildToFile, hcp] at h2
      simp [persistElf] at h1 h2
      rw [← h1, ← h2]

/-- Witness for C9: the file contents after a successful build of
`progDivA` do not depend on the previous contents at the target path. -/
theorem c9_witness :
    (buildToFile IoEnv.ok none progDivA).2 = (buildToFile IoEnv.ok (some [9]) progDivA).2 :=
  c9_deterministic.2 progDivA none (some [9]) _ _ rfl rfl

lemma emitStmt_returnS (globals : List (String × Int)) (env : LocalEnv)
    (opt : Option Expr) (env2 : LocalEnv) (c : List Instr)
    (h : emitStmt globals env (Stmt.returnS opt) = some (env2, c)) :
    ∃ pre, c = pre ++ [Instr.ret] := by
  cases opt with
  | none =>
    simp [emitStmt] at h
    exact ⟨[], by simp [← h.2]⟩
  | some e =>
    simp [emitStmt, Option.map_eq_some'] at h
    obtain ⟨ce, hce, he⟩ := h
    exact ⟨ce, by simp [← he.2]⟩

lemma emitBlock_ret_last (globals : List (String × Int)) :
    ∀ (init : List Stmt) (opt : Option Expr) (env env2 : LocalEnv) (c : List Instr),
      emitBlock globals (init ++ [Stmt.returnS opt]) env = some (env2, c) →
      ∃ pre, c = pre ++ [Instr.ret] := by
  intro init
  induction init with
  | nil =>
    intro opt env env2 c h
    simp only [List.nil_append] at h
    cases hs : emitStmt globals env (Stmt.returnS opt) with
    | none => simp [emitBlock, hs] at h
    | some r =>
      obtain ⟨env1, c1⟩ := r
      simp only [emitBlock, hs] at h
      obtain ⟨pre, hpre⟩ := emitStmt_returnS globals env opt env1 c1 hs
      simp at h
      exact ⟨pre, by rw [← h.2, hpre]⟩
  | cons s init ih =>
    intro opt env env2 c h
    rw [List.cons_append] at h
    cases hs : emitStmt globals env s with
    | none => simp [emitBlock, hs] at h
    | some r =>
      obtain ⟨env1, c1⟩ := r
      simp only [emitBlock, hs] at h
      cases hb : emitBlock globals (init ++ [Stmt.returnS opt]) env1 with
      | none => simp [hb] at h
      | some r2 =>
        obtain ⟨env3, c2⟩ := r2
        simp only [hb] at h
        simp at h
        obtain ⟨pre, hpre⟩ := ih opt env1 env3 c2 hb
        exact ⟨c1 ++ pre, by rw [← h.2, hpre, List.append_assoc]⟩

lemma compileFunc_ret (globals : List (String × Int)) (f : FuncDef) (func : Func)
    (h : compileFunc globals f = some func) :
    func.code ≠ [] ∧ func.code.getLast? = some Instr.ret := by
  unfold compileFunc at h
  rw [Option.map_eq_some'] at h
  obtain ⟨r, hr, hfunc⟩ := h
  obtain ⟨env, code⟩ := r
  rw [← hfunc]
  exact ⟨by simp, List.getLast?_concat _⟩

lemma compileDecls_ret (globals : List (String × Int)) :
    ∀ (decls : List TopDecl) (funcs : List Func),
      compileDecls globals decls = some funcs →
      ∀ f ∈ funcs, f.code ≠ [] ∧ f.code.getLast? = some Instr.ret := by
  intro decls
  induction decls with
  | nil =>
    intro funcs h f hf
    simp [compileDecls] at h
    subst h
    simp at hf
  | cons d rest ih =>
    intro funcs h f hf
    cases d with
    | funcD fd =>
      cases hcf : compileFunc globals fd with
      | none => simp [compileDecls, hcf] at h
      | some fc =>
        cases hcd : compileDecls globals rest with
        | none => simp [compileDecls, hcf, hcd] at h
        | some fs =>
          simp only [compileDecls, hcf, hcd] at h
          simp at h
          subst h
          rcases List.mem_cons.mp hf with hf | hf
          · subst hf; exact compileFunc_ret globals fd f hcf
          · exact ih fs hcd f hf
    | structD name => exact ih funcs (by simpa [compileDecls] using h) f hf
    | constD ty name value => exact ih funcs (by simpa [compileDecls] using h) f hf
    | varD ty name value => exact ih funcs (by simpa [compileDecls] using h) f hf
    | effectD name => exact ih funcs (by simpa [compileDecls] using h) f hf

/-- C10: every function produced by a successful `Codegen.compile` has a
non-empty instruction list ending in `Ret` (the trailing `Ret` is appended
unconditionally), and a function whose body already ends in an explicit
return statement compiles to code ending in two consecutive `Ret`
instructions. -/
theorem c10_ret_terminated :
    (∀ (ast : ProgramAst) (ir : ProgramIR), Codegen.compile ast = some ir →
      ∀ f ∈ ir.funcs, f.code ≠ [] ∧ f.code.getLast? = some Instr.ret) ∧
    (∀ (globals : List (String × Int)) (fd : FuncDef) (func : Func)
      (init : List Stmt) (opt : Option Expr),
      fd.body = init ++ [Stmt.returnS opt] →
      compileFunc globals fd = some func →
      ∃ pre, func.code = pre ++ [Instr.ret, Instr.ret]) := by
  constructor
  · intro ast ir h f hf
    unfold Codegen.compile at h
    rw [Option.map_eq_some'] at h
    obtain ⟨fs, hfs, hir⟩ := h
    rw [← hir] at hf
    exact compileDecls_ret _ _ _ hfs f hf
  · intro globals fd func init opt hbody hcf
    unfold compileFunc at hcf
    rw [Option.map_eq_some'] at hcf
    obtain ⟨r, hb, hfunc⟩ := hcf
    obtain ⟨env, code⟩ := r
    rw [hbody] at hb
    obtain ⟨pre, hpre⟩ := emitBlock_ret_last globals init opt _ env code hb
    refine ⟨pre, ?_⟩
    rw [← hfunc]
    simp [hpre]

/-- Witness for C10 at the program `i32 main() { return 0; }`, which
compiles to a `main` whose code is push 0; Ret; Ret. -/
theorem c10_witness :
    Codegen.compile astRet0 = some irRet0 ∧
    (∀ f ∈ irRet0.funcs, f.code ≠ [] ∧ f.code.getLast? = some Instr.ret) :=
  ⟨rfl, c10_ret_terminated.1 astRet0 irRet0 rfl⟩

end Cosplae
